import Mathlib

/-!
Verification of the cumulus_geoproc utils module: the extension rewriter
`file_extension` and the archive decompressor `decompress` with its
path-traversal guard (`is_within_directory`, `safe_extract`).

Strings are modelled as lists of characters; Python string primitives
(slicing, `str.replace`, `os.path` functions) are embedded as executable
Lean functions mirroring the CPython semantics the source relies on.
The filesystem is a mutable map from path to file content, and file
content is tagged by the archive format it sniffs as.
-/

abbrev Str := List Char

/-- The module-level tuple `EXTS` of recognized extensions, in source order. -/
def EXTS : List Str :=
  [r".bil", r".bin", r".dat", r".gz", r".grb", r".grb.gz", r".grb2", r".grib",
   r".grib.gz", r".grib2", r".grib2.gz", r".nc", r".tar", r".tar.gz", r".tif",
   r".tiff", r".txt", r".zip"].map String.toList

/-- Python slice `s[-n:]` for `n ≥ 1`: the last `n` characters (whole string
when `n` exceeds the length). -/
def pyTail (s : Str) (n : Nat) : Str := s.drop (s.length - n)

/-- Python list indexing `l[i]`: non-negative indices from the front,
negative indices from the end, `none` models an `IndexError`. -/
def pyGet {α : Type} (l : List α) (i : Int) : Option α :=
  if 0 ≤ i then l.get? i.toNat
  else if (-i).toNat ≤ l.length then l.get? (l.length - (-i).toNat)
  else none

/-- Python `s.replace('', rep)`: `rep` interleaved around every character. -/
def interleave (rep : Str) : Str → Str
  | [] => rep
  | c :: rest => rep ++ c :: interleave rep rest

/-- Scanner for Python `str.replace` with a non-empty pattern: left-to-right,
non-overlapping; the counter skips the remaining characters of a match. -/
def replaceGo (pat rep : Str) : Str → Nat → Str
  | [], _ => []
  | _ :: rest, k + 1 => replaceGo pat rep rest k
  | c :: rest, 0 =>
    if pat.isPrefixOf (c :: rest) then rep ++ replaceGo pat rep rest (pat.length - 1)
    else c :: replaceGo pat rep rest 0

/-- Python `s.replace(pat, rep)`: every non-overlapping occurrence of `pat`
in `s`, scanned left to right, is replaced by `rep`. -/
def pyReplace (s pat rep : Str) : Str :=
  if pat = [] then interleave rep s else replaceGo pat rep s 0

/-- Line 60 of the source: prepend the preffix when given. -/
def applyPreffix : Option Str → Str → Str
  | some p, file => p ++ file
  | none, file => file

/-- Line 63 of the source: a truthy user extension replaces `EXTS` as the
set checked by `endswith`; a falsy one (absent or empty) leaves `EXTS`. -/
def activeExts : Option Str → List Str
  | some e => if e = [] then EXTS else [e]
  | none => EXTS

/-- Lines 66-68 of the source: the candidate list comprehension
`[file.replace(file[-len(e):], suffix) for e in EXTS if file[-len(e):] == e]`. -/
def fe_candidates (file1 suffix : Str) : List Str :=
  (EXTS.filter (fun e => pyTail file1 e.length == e)).map
    (fun e => pyReplace file1 (pyTail file1 e.length) suffix)

/-- Embedding of `file_extension` (source lines 35-76). The `Option` result
models the possible `IndexError` from `file_[maxsplit]`. -/
def file_extension (file : Str) (preffix : Option Str) (suffix : Str)
    (extension : Option Str) (maxsplit : Int) : Option Str :=
  let file1 := applyPreffix preffix file
  let exts1 := activeExts extension
  if exts1.any (fun e => e.isSuffixOf file1) then
    let cands := fe_candidates file1 suffix
    let m1 : Int := if 0 < maxsplit then maxsplit - 1 else maxsplit
    let m2 : Int := min ((cands.length : Int) - 1) m1
    pyGet cands m2
  else some (file1 ++ suffix)

/-- A pattern has no nonempty proper border (no proper suffix equal to a
proper prefix); occurrences of such a pattern cannot overlap. -/
abbrev NoBorder (pat : Str) : Prop :=
  ∀ k, k < pat.length → 0 < k → pat.drop (pat.length - k) ≠ pat.take k

/-- The index the source computes on lines 71-72: decrement a positive
`maxsplit`, then cap by `len(file_) - 1`; no lower clamp. -/
def normIndex (maxsplit : Int) (n : Nat) : Int :=
  min ((n : Int) - 1) (if 0 < maxsplit then maxsplit - 1 else maxsplit)

/-- Modelled from the spec: the index selection as the specification words
it, "clamp to [0, len(candidates)-1]" after normalizing. -/
def specClampIndex (maxsplit : Int) (n : Nat) : Int :=
  max 0 (min ((n : Int) - 1) (if 0 < maxsplit then maxsplit - 1 else maxsplit))

def slashC : Char := '/'

/-- Python `str.split(c)`. -/
def splitChar (c : Char) : Str → List Str
  | [] => [[]]
  | a :: rest =>
    if a = c then [] :: splitChar c rest
    else
      match splitChar c rest with
      | [] => [[a]]
      | s :: ss => (a :: s) :: ss

def sDot : Str := ".".toList
def sDotDot : Str := "..".toList

/-- CPython `posixpath.normpath`: collapse separators, drop `.` components,
resolve `..` lexically, preserving exactly two leading slashes specially. -/
def normpath (p : Str) : Str :=
  if p = [] then sDot
  else
    let slashes : Nat :=
      if [slashC, slashC, slashC].isPrefixOf p then 1
      else if [slashC, slashC].isPrefixOf p then 2
      else if [slashC].isPrefixOf p then 1
      else 0
    let comps := splitChar slashC p
    let newComps := comps.foldl
      (fun acc comp =>
        if comp = [] ∨ comp = sDot then acc
        else if comp ≠ sDotDot ∨ (slashes = 0 ∧ acc = [])
            ∨ (acc ≠ [] ∧ acc.getLast? = some sDotDot) then acc ++ [comp]
        else if acc ≠ [] then acc.dropLast
        else acc) []
    let path := List.replicate slashes slashC ++ List.intercalate [slashC] newComps
    if path = [] then sDot else path

/-- CPython `posixpath.join` for two components. -/
def pyJoin (a b : Str) : Str :=
  if [slashC].isPrefixOf b then b
  else if a = [] ∨ a.getLast? = some slashC then a ++ b
  else a ++ slashC :: b

/-- CPython `posixpath.basename`: everything after the last separator. -/
def basename (p : Str) : Str := (p.reverse.takeWhile (fun c => c ≠ slashC)).reverse

/-- `os.path.abspath` with an explicit current working directory. -/
def abspath (cwd p : Str) : Str :=
  normpath (if [slashC].isPrefixOf p then p else pyJoin cwd p)

/-- `os.path.commonprefix` of two paths: the character-wise longest common
prefix, with no awareness of path-component boundaries. -/
def commonPrefix2 : Str → Str → Str
  | a :: as, b :: bs => if a = b then a :: commonPrefix2 as bs else []
  | _, _ => []

/-- Embedding of the inner `is_within_directory` (source lines 140-147). -/
def is_within_directory (cwd directory target : Str) : Bool :=
  commonPrefix2 (abspath cwd directory) (abspath cwd target) == abspath cwd directory

/-- Modelled from the spec: "never writes outside the intended destination
directory" — a path is within a directory exactly when its absolute resolved
form is the directory itself or lies below it past a separator. -/
def specWithin (cwd directory target : Str) : Bool :=
  abspath cwd target == abspath cwd directory
    || (abspath cwd directory ++ [slashC]).isPrefixOf (abspath cwd target)

/-- File content, tagged by how the three probes of the source treat it:
`plain b` is nonempty bytes without the gzip magic that are neither zip nor
tar (the gzip probe raises `BadGzipFile`, an `OSError`); `emptyFile` is a
zero-byte file, which CPython's gzip reads as a valid empty stream;
`gzipData inner` is a well-formed gzip stream whose decompressed payload is
`inner`; `gzipCorrupt` carries the gzip magic but is truncated or corrupt,
so reading raises `EOFError` or `zlib.error` (neither an `OSError`);
`zipData` is a zip archive of named entries and `tarData` a tar archive of
members `(name, isfile, data)`. -/
inductive FileData where
  | plain : List Nat → FileData
  | emptyFile : FileData
  | gzipData : FileData → FileData
  | gzipCorrupt : FileData
  | zipData : List (Str × FileData) → FileData
  | tarData : List (Str × Bool × FileData) → FileData

abbrev TarMember := Str × Bool × FileData

def memberName (m : TarMember) : Str := m.1

def memberIsFile (m : TarMember) : Bool := m.2.1

def memberData (m : TarMember) : FileData := m.2.2

/-- The filesystem: an association of paths to file contents, most recent
write first. -/
abbrev FS := List (Str × FileData)

def fsLookup (fs : FS) (p : Str) : Option FileData := List.lookup p fs

def fsWrite (fs : FS) (p : Str) (d : FileData) : FS := (p, d) :: fs

/-- The Python exception classes the source distinguishes: `OSError` (file
missing, or gzip magic absent: `BadGzipFile` is an `OSError`), `EOFError` /
`zlib.error` from a truncated or corrupt gzip stream (NOT `OSError`
subclasses), `IndexError` (list indexing), the explicit traversal
`Exception`, and `RecursionError` at the recursion limit. -/
inductive PyExc where
  | osError
  | eofError
  | indexError
  | traversalExc
  | recursionError

/-- Only `OSError` is caught by the first `except` clause. -/
def isOSError : PyExc → Bool
  | PyExc.osError => true
  | _ => false

/-- The four extensions `decompress` accepts (source lines 101-106). -/
def decExts : List Str := [r".gz", r".tar", r".zip", r".tar.gz"].map String.toList

/-- CPython `ZipFile._extract_member`'s posix name sanitization: empty,
`.` and `..` path components of the stored entry name are dropped. -/
def zipSanitize (name : Str) : Str :=
  List.intercalate [slashC]
    ((splitChar slashC name).filter
      (fun comp => !(comp == [] || comp == sDot || comp == sDotDot)))

/-- Lines 128-133: `zip.extractall(dst_)` writes every entry below `dst_`,
at its sanitized stored name. -/
def zip_extractall (fs : FS) (path : Str) (entries : List (Str × FileData)) : FS :=
  entries.foldl (fun a e => fsWrite a (pyJoin path (zipSanitize e.1)) e.2) fs

/-- Line 156: `tar.extractall(path)` writes every file member below `path`,
at the path its stored (possibly `..`-bearing) name joins to. -/
def tar_extractall (fs : FS) (path : Str) (members : List TarMember) : FS :=
  members.foldl
    (fun a m =>
      if memberIsFile m then fsWrite a (pyJoin path (memberName m)) (memberData m) else a)
    fs

/-- Embedding of `safe_extract` (source lines 149-156): every member is
checked with `is_within_directory` before anything is extracted; a failing
member raises the traversal `Exception` and nothing is written. -/
def safe_extract (cwd : Str) (fs : FS) (tar : List TarMember) (path : Str) : Except PyExc FS :=
  if tar.all (fun member => is_within_directory cwd path (pyJoin path (memberName member))) then
    Except.ok (tar_extractall fs path tar)
  else Except.error PyExc.traversalExc

/-- Lines 114-122, the body of the first `try` block: read `src` as gzip,
write the decompressed payload to `dst` joined with the one-level-stripped
basename, and rebind `src` to that path. A zero-byte file reads as an empty
stream (payload written, `src` rebound); a missing file or one without the
gzip magic raises `OSError` (`FileNotFoundError` / `BadGzipFile`); a
truncated or corrupt gzip stream raises `EOFError` / `zlib.error`, which is
not an `OSError`; a failing `file_extension` call would raise `IndexError`. -/
def gzipStep (fs : FS) (src dst filename : Str) : Except PyExc (FS × Str) :=
  match fsLookup fs src with
  | some (FileData.gzipData inner) =>
    match file_extension filename none [] none 1 with
    | some fname => Except.ok (fsWrite fs (pyJoin dst fname) inner, pyJoin dst fname)
    | none => Except.error PyExc.indexError
  | some FileData.emptyFile =>
    match file_extension filename none [] none 1 with
    | some fname =>
      Except.ok (fsWrite fs (pyJoin dst fname) FileData.emptyFile, pyJoin dst fname)
    | none => Except.error PyExc.indexError
  | some FileData.gzipCorrupt => Except.error PyExc.eofError
  | some _ => Except.error PyExc.osError
  | none => Except.error PyExc.osError

/-- The `except OSError` handler (lines 123-125): absorb `OSError` keeping
the original `fs` and `src`; let anything else propagate. -/
def handleOS (fs : FS) (src : Str) (x : Except PyExc (FS × Str)) :
    Except (PyExc × FS) (FS × Str) :=
  match x with
  | Except.ok r => Except.ok r
  | Except.error e => if isOSError e then Except.ok (fs, src) else Except.error (e, fs)

/-- The `except Exception` handler (lines 169-171): any exception from the
second try block is absorbed, the function returns the failure sentinel
(`none`), and writes made before the exception stay on the filesystem. -/
def absorbAll (x : Except (PyExc × FS) (FS × Option Str)) :
    Except (PyExc × FS) (FS × Option Str) :=
  match x with
  | Except.ok r => Except.ok r
  | Except.error e => Except.ok (e.2, none)

/-- The `for member in tar.getmembers(): if member.isfile(): decompress(...)`
loop of the recursive branch (source lines 160-167); `f` is the recursive
call, receiving the member path and the extraction directory. -/
def runMembers (f : FS → Str → Str → Except (PyExc × FS) (FS × Option Str)) :
    FS → Str → List TarMember → Except (PyExc × FS) FS
  | fs, _, [] => Except.ok fs
  | fs, dst2, m :: rest =>
    if memberIsFile m then
      match f fs (pyJoin dst2 (memberName m)) dst2 with
      | Except.ok (fs2, _) => runMembers f fs2 dst2 rest
      | Except.error e => Except.error e
    else runMembers f fs dst2 rest

/-- The body of the second `try` block (source lines 127-168): dispatch on
whether the (possibly gunzipped) `src1` is a zip, a tar, or neither. -/
def tryFormats (f : FS → Str → Str → Except (PyExc × FS) (FS × Option Str))
    (cwd dst filename : Str) (recursive : Bool) (fs1 : FS) (src1 : Str) :
    Except (PyExc × FS) (FS × Option Str) :=
  match fsLookup fs1 src1 with
  | some (FileData.zipData entries) =>
    match file_extension filename none [] none (-1) with
    | some fname =>
      Except.ok (zip_extractall fs1 (pyJoin dst fname) entries, some (pyJoin dst fname))
    | none => Except.error (PyExc.indexError, fs1)
  | some (FileData.tarData members) =>
    match file_extension filename none [] none (-1) with
    | some fname =>
      match safe_extract cwd fs1 members (pyJoin dst fname) with
      | Except.ok fs2 =>
        if recursive then
          match runMembers f fs2 (pyJoin dst fname) members with
          | Except.ok fs3 => Except.ok (fs3, some (pyJoin dst fname))
          | Except.error e => Except.error e
        else Except.ok (fs2, some (pyJoin dst fname))
      | Except.error e => Except.error (e, fs1)
    | none => Except.error (PyExc.indexError, fs1)
  | some _ => Except.ok (fs1, some src1)
  | none => Except.error (PyExc.osError, fs1)

/-- Embedding of `decompress` (source lines 79-173) over the filesystem
model, with an explicit working directory for `os.path.abspath`. `fuel`
bounds the recursion depth (Python's recursion limit); an uncaught exception
is an `Except.error` carrying the filesystem at raise time. The Python
return value `False` is `none`, a returned path string is `some`. -/
def decompress : Nat → FS → Str → Str → Str → Bool → Except (PyExc × FS) (FS × Option Str)
  | 0, fs, _, _, _, _ => Except.error (PyExc.recursionError, fs)
  | fuel + 1, fs, cwd, src, dst, recursive =>
    if decExts.any (fun e => e.isSuffixOf src) then
      match handleOS fs src (gzipStep fs src dst (basename src)) with
      | Except.error e => Except.error e
      | Except.ok (fs1, src1) =>
        absorbAll (tryFormats
          (fun fsa sa dsta => decompress fuel fsa cwd sa dsta recursive)
          cwd dst (basename src) recursive fs1 src1)
    else Except.ok (fs, none)

def sDataTarGz : Str := "data.tar.gz".toList
def sDataTar : Str := "data.tar".toList
def sData : Str := "data".toList
def sTif : Str := ".tif".toList
def sFileXyz : Str := "file.xyz".toList
def sXyz : Str := ".xyz".toList
def sATxt : Str := "a.txt".toList
def sReadmeMd : Str := "readme.md".toList
def sDataGrb2 : Str := "data.grb2".toList
def sGrb2 : Str := ".grb2".toList
def sGzGz : Str := ".gz.gz".toList
def sTifTif : Str := ".tif.tif".toList
def sGzTif : Str := ".gz.tif".toList
def cwdHome : Str := "/home/user".toList
def dstTmp : Str := "/tmp".toList
def srcTarC1 : Str := "/tmp/data.tar".toList
def evilMemberName : Str := "../database/x".toList
def evilMember : TarMember := (evilMemberName, true, FileData.plain [7])
def fsC1 : FS := [(srcTarC1, FileData.tarData [evilMember])]
def extractDirC1 : Str := "/tmp/data".toList
def evilWrittenPath : Str := pyJoin extractDirC1 evilMemberName
def dirOut : Str := "/tmp/out".toList
def tgtEvil : Str := "/tmp/out/../out-evil/f".toList
def srcTruncGz : Str := "/tmp/trunc.gz".toList
def fsTruncW : FS := [(srcTruncGz, FileData.gzipCorrupt)]
def srcEmptyGz : Str := "/tmp/e.gz".toList
def fsEmptyW : FS := [(srcEmptyGz, FileData.emptyFile)]
def dstTmpE : Str := "/tmp/e".toList
def srcTxt : Str := "/tmp/notes.txt".toList
def srcGzW : Str := "/tmp/a.gz".toList
def fsPlainW : FS := [(srcGzW, FileData.plain [1])]

theorem replaceGo_skip (pat rep : Str) :
    ∀ (s : Str) (k : Nat), replaceGo pat rep s k = replaceGo pat rep (s.drop k) 0 := by
  intro s
  induction s with
  | nil => intro k; cases k <;> rfl
  | cons c rest ih =>
    intro k
    cases k with
    | zero => rfl
    | succ k => simpa [replaceGo] using ih k

theorem replaceGo_nil (pat rep : Str) : replaceGo pat rep [] 0 = [] := rfl

theorem replaceGo_pos (pat rep : Str) (c : Char) (rest : Str)
    (hp : pat.isPrefixOf (c :: rest) = true) :
    replaceGo pat rep (c :: rest) 0
      = rep ++ replaceGo pat rep (rest.drop (pat.length - 1)) 0 := by
  rw [replaceGo, if_pos hp, replaceGo_skip]

theorem replaceGo_neg (pat rep : Str) (c : Char) (rest : Str)
    (hp : ¬ pat.isPrefixOf (c :: rest) = true) :
    replaceGo pat rep (c :: rest) 0 = c :: replaceGo pat rep rest 0 := by
  rw [replaceGo, if_neg hp]

/-- With a non-empty, border-free pattern that is a suffix of the input,
every replacement result ends with the replacement string: the trailing
occurrence is always rewritten. -/
theorem replaceGo_endsWith (pat rep : Str) (hne : pat ≠ []) (hnb : NoBorder pat) :
    ∀ (n : Nat) (s : Str), s.length ≤ n → pat <:+ s → rep <:+ replaceGo pat rep s 0 := by
  intro n
  induction n with
  | zero =>
    intro s hlen hsuf
    have hs : s = [] := List.eq_nil_of_length_eq_zero (Nat.le_zero.mp hlen)
    subst hs
    exact absurd (List.suffix_nil.mp hsuf) hne
  | succ n ih =>
    intro s hlen hsuf
    match s, hlen, hsuf with
    | [], _, hsuf => exact absurd (List.suffix_nil.mp hsuf) hne
    | c :: rest, hlen, hsuf =>
      by_cases hp : pat.isPrefixOf (c :: rest) = true
      · have hpre : pat <+: c :: rest := by simpa using hp
        obtain ⟨t, ht⟩ := hpre
        have hplen : 0 < pat.length := List.length_pos.mpr hne
        have hdrop : rest.drop (pat.length - 1) = (c :: rest).drop pat.length := by
          obtain ⟨m, hm⟩ : ∃ m, pat.length = m + 1 := ⟨pat.length - 1, by omega⟩
          rw [hm]
          simp
        have hts : t = (c :: rest).drop pat.length := by
          rw [← ht, List.drop_left]
        rw [replaceGo_pos pat rep c rest hp, hdrop, ← hts]
        rcases eq_or_ne t [] with hte | htne
        · subst hte
          rw [replaceGo_nil, List.append_nil]
        · have hlt : 0 < t.length := List.length_pos.mpr htne
          have hslen : (c :: rest).length = pat.length + t.length := by
            rw [← ht, List.length_append]
          have hpeq : pat = pat.drop t.length ++ t.drop (t.length - pat.length) := by
            have h1 : pat = (c :: rest).drop ((c :: rest).length - pat.length) :=
              List.suffix_iff_eq_drop.mp hsuf
            have h2 : (c :: rest).length - pat.length = t.length := by omega
            rw [h2, ← ht, List.drop_append_eq_append_drop] at h1
            exact h1
          by_cases hlenle : pat.length ≤ t.length
          · have hsuft : pat <:+ t := by
              apply List.suffix_iff_eq_drop.mpr
              have hnil : pat.drop t.length = [] := List.drop_eq_nil_of_le (by omega)
              calc pat = pat.drop t.length ++ t.drop (t.length - pat.length) := hpeq
                _ = t.drop (t.length - pat.length) := by rw [hnil, List.nil_append]
            have htn : t.length ≤ n := by
              have := List.length_cons c rest
              omega
            exact (ih t htn hsuft).trans (List.suffix_append rep _)
          · exfalso
            have htlt : t.length < pat.length := by omega
            have hpeq2 : pat = pat.drop t.length ++ t := by
              have h0 : t.length - pat.length = 0 := Nat.sub_eq_zero_of_le (by omega)
              calc pat = pat.drop t.length ++ t.drop (t.length - pat.length) := hpeq
                _ = pat.drop t.length ++ t := by rw [h0, List.drop_zero]
            have hlend : (pat.drop t.length).length = pat.length - t.length :=
              List.length_drop _ _
            have htake : pat.take (pat.length - t.length) = pat.drop t.length := by
              have h5 : (pat.drop t.length ++ t).take (pat.length - t.length)
                  = pat.drop t.length := List.take_left' hlend
              rw [← hpeq2] at h5
              exact h5
            have hdropk :
                pat.drop (pat.length - (pat.length - t.length)) = pat.drop t.length := by
              congr 1
              omega
            exact hnb (pat.length - t.length) (by omega) (by omega) (by rw [hdropk, htake])
      · have hne2 : pat ≠ c :: rest := by
          intro h
          exact hp (by simp [h])
        have hsuf2 : pat <:+ rest := (List.suffix_cons_iff.mp hsuf).resolve_left hne2
        rw [replaceGo_neg pat rep c rest hp]
        have hrn : rest.length ≤ n := by
          have := List.length_cons c rest
          omega
        exact (ih rest hrn hsuf2).trans (List.suffix_cons c _)

/-- When the pattern occurs in `u ++ pat` only as the trailing occurrence,
replacement rewrites exactly that occurrence and keeps `u` unchanged. -/
theorem replaceGo_unique (pat rep : Str) (hne : pat ≠ []) :
    ∀ u : Str, (∀ i, i < u.length → ¬ pat <+: (u ++ pat).drop i) →
      replaceGo pat rep (u ++ pat) 0 = u ++ rep := by
  intro u
  induction u with
  | nil =>
    intro _
    match pat, hne with
    | c :: rest, _ =>
      have hp : (c :: rest).isPrefixOf (c :: rest) = true := by simp
      rw [List.nil_append, replaceGo_pos _ rep c rest hp]
      simp [replaceGo_nil]
  | cons c u' ih =>
    intro h
    have h0 : ¬ pat <+: ((c :: u') ++ pat).drop 0 := h 0 (by simp)
    rw [List.drop_zero, List.cons_append] at h0
    have hpb : ¬ pat.isPrefixOf (c :: (u' ++ pat)) = true := fun hb => h0 (by simpa using hb)
    rw [List.cons_append, replaceGo_neg pat rep c (u' ++ pat) hpb]
    rw [ih (fun i hi => by
      have := h (i + 1) (by simpa using Nat.succ_lt_succ hi)
      simpa using this)]
    rfl

theorem pyReplace_of_ne (s pat rep : Str) (h : pat ≠ []) :
    pyReplace s pat rep = replaceGo pat rep s 0 := by
  simp [pyReplace, h]

theorem pyTail_eq_iff (f e : Str) : pyTail f e.length = e ↔ e <:+ f := by
  rw [pyTail]
  constructor
  · intro h
    exact List.suffix_iff_eq_drop.mpr h.symm
  · intro h
    exact (List.suffix_iff_eq_drop.mp h).symm

theorem exts_props : ∀ x ∈ EXTS, x ≠ [] ∧ NoBorder x := by decide

theorem fe_filter_eq (f : Str) :
    EXTS.filter (fun x => pyTail f x.length == x)
      = EXTS.filter (fun x => x.isSuffixOf f) := by
  apply List.filter_congr
  intro a _
  rw [Bool.eq_iff_iff]
  constructor
  · intro hb
    have hx : pyTail f a.length = a := by simpa using hb
    simpa using (pyTail_eq_iff f a).mp hx
  · intro hb
    have hx : a <:+ f := by simpa using hb
    simpa using (pyTail_eq_iff f a).mpr hx

theorem fe_candidates_eq (f s : Str) :
    fe_candidates f s
      = (EXTS.filter (fun x => x.isSuffixOf f)).map (fun x => pyReplace f x s) := by
  rw [fe_candidates, fe_filter_eq]
  apply List.map_congr_left
  intro a ha
  have hsa : a <:+ f := by simpa using (List.mem_filter.mp ha).2
  rw [(pyTail_eq_iff f a).mpr hsa]

theorem pyGet_neg_one {α : Type} (l : List α) (h : l ≠ []) : pyGet l (-1) = l.getLast? := by
  have hl : 0 < l.length := List.length_pos.mpr h
  have h1 : ((-(-1 : Int))).toNat = 1 := by decide
  rw [pyGet, if_neg (by omega), if_pos (by omega), h1, List.get?_eq_getElem?,
    ← List.getLast?_eq_getElem?]

/-- Totality of `file_extension` without a user extension override, for any
`maxsplit ≥ -1`: the candidate list is nonempty whenever the `endswith`
test passes, and the computed index is then in Python range. -/
theorem fe_some (file : Str) (preffix : Option Str) (suffix : Str) (maxsplit : Int)
    (hm : -1 ≤ maxsplit) :
    (file_extension file preffix suffix none maxsplit).isSome = true := by
  simp only [file_extension]
  by_cases h : (activeExts none).any (fun e => e.isSuffixOf (applyPreffix preffix file)) = true
  · rw [if_pos h]
    obtain ⟨e, he, hsb⟩ := List.any_eq_true.mp h
    have hmem : e ∈ EXTS.filter (fun x => x.isSuffixOf (applyPreffix preffix file)) :=
      List.mem_filter.mpr ⟨he, hsb⟩
    have hne : fe_candidates (applyPreffix preffix file) suffix ≠ [] := by
      rw [fe_candidates_eq]
      exact List.ne_nil_of_mem (List.mem_map_of_mem _ hmem)
    have hL : 0 < (fe_candidates (applyPreffix preffix file) suffix).length :=
      List.length_pos.mpr hne
    have hm1 : -1 ≤ (if 0 < maxsplit then maxsplit - 1 else maxsplit) := by
      split <;> omega
    have hub : min (((fe_candidates (applyPreffix preffix file) suffix).length : Int) - 1)
        (if 0 < maxsplit then maxsplit - 1 else maxsplit)
        ≤ ((fe_candidates (applyPreffix preffix file) suffix).length : Int) - 1 :=
      min_le_left _ _
    have hlb : -1 ≤ min (((fe_candidates (applyPreffix preffix file) suffix).length : Int) - 1)
        (if 0 < maxsplit then maxsplit - 1 else maxsplit) :=
      le_min (by omega) hm1
    rw [pyGet]
    set m2 := min (((fe_candidates (applyPreffix preffix file) suffix).length : Int) - 1)
      (if 0 < maxsplit then maxsplit - 1 else maxsplit)
    by_cases h0 : 0 ≤ m2
    · rw [if_pos h0]
      have hlt : m2.toNat < (fe_candidates (applyPreffix preffix file) suffix).length := by
        omega
      rw [List.get?_eq_get hlt]
      rfl
    · rw [if_neg h0]
      have hle : (-m2).toNat ≤ (fe_candidates (applyPreffix preffix file) suffix).length := by
        omega
      rw [if_pos hle]
      have hlt : (fe_candidates (applyPreffix preffix file) suffix).length - (-m2).toNat
          < (fe_candidates (applyPreffix preffix file) suffix).length := by
        omega
      rw [List.get?_eq_get hlt]
      rfl
  · rw [if_neg h]
    rfl

/-- C6: with the recognized extension set in its source order,
`file_extension("data.tar.gz", suffix="", maxsplit=1)` is exactly
`"data.tar"`: one trailing extension level stripped. -/
theorem file_extension_data_tar_gz_maxsplit_one :
    file_extension sDataTarGz none [] none 1 = some sDataTar := by decide

/-- C9: when the (possibly prefixed) filename ends with no extension of the
active candidate set, `file_extension` returns it with the suffix appended,
unmodified otherwise. -/
theorem file_extension_no_trailing_match (file : Str) (preffix : Option Str) (suffix : Str)
    (extension : Option Str) (maxsplit : Int)
    (h : (activeExts extension).any (fun e => e.isSuffixOf (applyPreffix preffix file)) = false) :
    file_extension file preffix suffix extension maxsplit
      = some (applyPreffix preffix file ++ suffix) := by
  simp only [file_extension]
  rw [if_neg (by simp [h])]

theorem file_extension_no_trailing_match_wit :
    ((activeExts none).any (fun e => e.isSuffixOf (applyPreffix none sReadmeMd)) = false)
      ∧ file_extension sReadmeMd none sTif none (-1)
        = some (applyPreffix none sReadmeMd ++ sTif) :=
  ⟨by decide, file_extension_no_trailing_match sReadmeMd none sTif none (-1) (by decide)⟩

/-- C3 counterexample: with a user extension override that matches the
filename while no entry of `EXTS` trailing-matches it, the candidate list
is empty and the indexing raises `IndexError` (modelled as `none`), so
`file_extension` does not always return a string. -/
theorem file_extension_override_raises :
    file_extension sFileXyz none sTif (some sXyz) (-1) = none := by decide

/-- C3 (amended): `file_extension` returns a string whenever no extension
override is supplied and `maxsplit ≥ -1` (in particular, at the defaults);
the failure cases are exactly an override matching with no `EXTS`
trailing-match, or `maxsplit` below minus the candidate-list length. -/
theorem file_extension_total_no_override (file : Str) (preffix : Option Str) (suffix : Str)
    (maxsplit : Int) (hm : -1 ≤ maxsplit) :
    (file_extension file preffix suffix none maxsplit).isSome = true :=
  fe_some file preffix suffix maxsplit hm

theorem file_extension_total_no_override_wit :
    ((-1 : Int) ≤ -1) ∧ (file_extension sATxt none sTif none (-1)).isSome = true :=
  ⟨by decide, file_extension_total_no_override sATxt none sTif (-1) (by decide)⟩

/-- C5 counterexample: `file_extension(".gz.gz", suffix=".tif")` yields
`".tif.tif"` because `str.replace` rewrites every occurrence of the matched
extension, so the pre-extension portion `".gz"` is not preserved (the claim
would require `".gz.tif"`). -/
theorem file_extension_replaces_all_occurrences :
    file_extension sGzGz none sTif none (-1) = some sTifTif ∧ sTifTif ≠ sGzTif := by
  decide

/-- C5 (amended): for a filename ending in a recognized extension, with `e`
the selected (last in `EXTS` order) trailing match, the result is the
filename with every occurrence of `e` replaced by the suffix; it always ends
exactly with the suffix, and the pre-extension portion is preserved
unchanged when `e` occurs in the filename only as the trailing match. -/
theorem file_extension_recognized_suffix (f s e : Str)
    (hlast : (EXTS.filter (fun x => x.isSuffixOf f)).getLast? = some e) :
    file_extension f none s none (-1) = some (pyReplace f e s)
      ∧ s <:+ pyReplace f e s
      ∧ ∀ u : Str, f = u ++ e → (∀ i, i < u.length → ¬ e <+: f.drop i) →
          pyReplace f e s = u ++ s := by
  obtain ⟨ys, hys⟩ := List.getLast?_eq_some_iff.mp hlast
  have hmem : e ∈ EXTS.filter (fun x => x.isSuffixOf f) := by
    rw [hys]
    simp
  obtain ⟨heE, hsb⟩ := List.mem_filter.mp hmem
  have hsuf : e <:+ f := by simpa using hsb
  obtain ⟨hene, hnb⟩ := exts_props e heE
  have hne : fe_candidates f s ≠ [] := by
    rw [fe_candidates_eq]
    exact List.ne_nil_of_mem (List.mem_map_of_mem _ hmem)
  refine ⟨?_, ?_, ?_⟩
  · simp only [file_extension, applyPreffix, activeExts]
    rw [if_pos (List.any_eq_true.mpr ⟨e, heE, hsb⟩)]
    have hL : 0 < (fe_candidates f s).length := List.length_pos.mpr hne
    have hif : (if (0 : Int) < -1 then (-1 : Int) - 1 else -1) = -1 := by norm_num
    rw [hif]
    have hmin : min (((fe_candidates f s).length : Int) - 1) (-1 : Int) = -1 :=
      min_eq_right (by omega)
    rw [hmin, pyGet_neg_one _ hne, fe_candidates_eq, List.getLast?_map, hlast]
    rfl
  · rw [pyReplace_of_ne f e s hene]
    exact replaceGo_endsWith e s hene hnb f.length f le_rfl hsuf
  · intro u hu hocc
    rw [pyReplace_of_ne f e s hene]
    subst hu
    exact replaceGo_unique e s hene u hocc

theorem file_extension_recognized_suffix_wit :
    file_extension sDataGrb2 none sTif none (-1) = some (pyReplace sDataGrb2 sGrb2 sTif)
      ∧ sTif <:+ pyReplace sDataGrb2 sGrb2 sTif
      ∧ ∀ u : Str, sDataGrb2 = u ++ sGrb2 →
          (∀ i, i < u.length → ¬ sGrb2 <+: sDataGrb2.drop i) →
          pyReplace sDataGrb2 sGrb2 sTif = u ++ sTif :=
  file_extension_recognized_suffix sDataGrb2 sTif sGrb2 (by decide)

/-- C7 counterexample: on `"data.tar.gz"` with suffix `""` the candidate
list is `["data.tar", "data"]`; the claimed index — normalized `maxsplit`
clamped into `[0, len-1]` — would be `0` and select `"data.tar"`, but the
code with the default `maxsplit = -1` returns `"data"`. -/
theorem index_not_clamped_below :
    fe_candidates sDataTarGz [] = [sDataTar, sData]
      ∧ pyGet (fe_candidates sDataTarGz [])
          (specClampIndex (-1) (fe_candidates sDataTarGz []).length) = some sDataTar
      ∧ file_extension sDataTarGz none [] none (-1) = some sData
      ∧ sData ≠ sDataTar := by
  decide

/-- C7 (amended): with a nonempty candidate list the selected entry is the
one at `normIndex`: `maxsplit - 1` when `maxsplit > 0` and `maxsplit`
itself otherwise, capped above by `len - 1` but not clamped below; the
possibly negative result indexes Python-style from the end, and values
below `-len` raise `IndexError`. -/
theorem file_extension_index_rule (file : Str) (preffix : Option Str) (suffix : Str)
    (maxsplit : Int)
    (h : (activeExts none).any (fun e => e.isSuffixOf (applyPreffix preffix file)) = true) :
    file_extension file preffix suffix none maxsplit
      = pyGet (fe_candidates (applyPreffix preffix file) suffix)
          (normIndex maxsplit (fe_candidates (applyPreffix preffix file) suffix).length) := by
  simp only [file_extension, normIndex]
  rw [if_pos h]

theorem file_extension_index_rule_wit :
    ((activeExts none).any (fun e => e.isSuffixOf (applyPreffix none sDataTarGz)) = true)
      ∧ file_extension sDataTarGz none [] none (-1)
        = pyGet (fe_candidates (applyPreffix none sDataTarGz) [])
            (normIndex (-1) (fe_candidates (applyPreffix none sDataTarGz) []).length) :=
  ⟨by decide, file_extension_index_rule sDataTarGz none [] (-1) (by decide)⟩

/-- C4 (code bug): a `.gz` source whose content carries the gzip magic but
is truncated or corrupt makes `gzip.open(src).read()` raise `EOFError` (or
`zlib.error`), which is not an `OSError`: the `except OSError` clause on
line 123 does not catch it, no other handler encloses the first try block,
and the exception escapes `decompress` instead of being absorbed. -/
theorem decompress_eoferror_escapes :
    decompress 1 fsTruncW cwdHome srcTruncGz dstTmp false
      = Except.error (PyExc.eofError, fsTruncW)
      ∧ isOSError PyExc.eofError = false :=
  ⟨rfl, rfl⟩

/-- C8: a source whose name ends with none of `.gz`, `.tar`, `.zip`,
`.tar.gz` makes `decompress` return the failure sentinel at once, with the
filesystem untouched and no exception. -/
theorem decompress_wrong_extension (fuel : Nat) (fs : FS) (cwd src dst : Str)
    (recursive : Bool) (hf : 0 < fuel)
    (h : decExts.any (fun e => e.isSuffixOf src) = false) :
    decompress fuel fs cwd src dst recursive = Except.ok (fs, none) := by
  obtain ⟨n, rfl⟩ : ∃ n, fuel = n + 1 := ⟨fuel - 1, by omega⟩
  simp only [decompress]
  rw [if_neg (by simp [h])]

theorem decompress_wrong_extension_wit :
    (0 < 1) ∧ (decExts.any (fun e => e.isSuffixOf srcTxt) = false)
      ∧ decompress 1 [] cwdHome srcTxt dstTmp false = Except.ok ([], none) :=
  ⟨by decide, by decide,
    decompress_wrong_extension 1 [] cwdHome srcTxt dstTmp false (by decide) (by decide)⟩

/-- C10 counterexample: a zero-byte file named `e.gz` — its content none of
gzip, zip, or tar format — is read by CPython's gzip as a valid empty
stream, so `decompress` writes a new empty file at `/tmp/e` (a path absent
from the original filesystem) and returns that new path, not the original
source path. -/
theorem decompress_empty_gz_new_path :
    decompress 1 fsEmptyW cwdHome srcEmptyGz dstTmp false
      = Except.ok (fsWrite fsEmptyW dstTmpE FileData.emptyFile, some dstTmpE)
      ∧ dstTmpE ≠ srcEmptyGz
      ∧ fsLookup fsEmptyW dstTmpE = none :=
  ⟨rfl, by decide, rfl⟩

/-- C10 (amended): a source with an accepted name whose content the gzip
probe rejects with `OSError` — nonempty bytes without the gzip magic,
neither zip nor tar — falls through both probes: the `OSError` is absorbed,
neither archive test matches, and the original source path is returned with
no new files created. (A zero-byte file instead reads as an empty gzip
stream and yields a new file and a new path; gzip-magic-bearing corrupt
content raises an uncaught `EOFError`.) -/
theorem decompress_unrecognized_content (fuel : Nat) (fs : FS) (cwd src dst : Str)
    (recursive : Bool) (b : List Nat) (hf : 0 < fuel)
    (hext : decExts.any (fun e => e.isSuffixOf src) = true)
    (hlook : fsLookup fs src = some (FileData.plain b)) :
    decompress fuel fs cwd src dst recursive = Except.ok (fs, some src) := by
  obtain ⟨n, rfl⟩ : ∃ n, fuel = n + 1 := ⟨fuel - 1, by omega⟩
  simp only [decompress]
  rw [if_pos hext]
  have hgz : handleOS fs src (gzipStep fs src dst (basename src)) = Except.ok (fs, src) := by
    rw [gzipStep, hlook]
    rfl
  rw [hgz]
  show absorbAll (tryFormats
      (fun fsa sa dsta => decompress n fsa cwd sa dsta recursive)
      cwd dst (basename src) recursive fs src) = Except.ok (fs, some src)
  rw [tryFormats, hlook]
  rfl

theorem decompress_unrecognized_content_wit :
    (0 < 1) ∧ (decExts.any (fun e => e.isSuffixOf srcGzW) = true)
      ∧ fsLookup fsPlainW srcGzW = some (FileData.plain [1])
      ∧ decompress 1 fsPlainW cwdHome srcGzW dstTmp false = Except.ok (fsPlainW, some srcGzW) :=
  ⟨by decide, by decide, rfl,
    decompress_unrecognized_content 1 fsPlainW cwdHome srcGzW dstTmp false [1]
      (by decide) (by decide) rfl⟩

/-- C1 (code bug): a tar at `/tmp/data.tar` with the single member
`../database/x` — a parent-directory escape — passes `safe_extract`'s
`commonprefix` check because `/tmp/data` is a character-wise prefix of the
resolved `/tmp/database/x`; `decompress` extracts it and returns the
extraction directory instead of failing, writing a file that resolves
outside that directory. -/
theorem traversal_guard_bypassed :
    decompress 1 fsC1 cwdHome srcTarC1 dstTmp false
      = Except.ok (fsWrite fsC1 evilWrittenPath (FileData.plain [7]), some extractDirC1)
      ∧ sDotDot.isPrefixOf evilMemberName = true
      ∧ specWithin cwdHome extractDirC1 evilWrittenPath = false :=
  ⟨rfl, by decide, by decide⟩

/-- C2 (code bug): `is_within_directory` accepts the member path
`/tmp/out/../out-evil/f` against the directory `/tmp/out` — the
character-wise `commonprefix` equals the directory — yet the path resolves
to `/tmp/out-evil/f`, outside the directory. -/
theorem within_check_unsound :
    is_within_directory cwdHome dirOut tgtEvil = true
      ∧ specWithin cwdHome dirOut tgtEvil = false := by
  decide
